import Mathlib

/-!
Verification of the ver-shim buffer codec and patch orchestrator.

The development shallowly embeds the Rust source of `ver-shim-build`:

* `build_section_buffer` (ver-shim-build/src/lib.rs) — the Buffer Codec encoder.
  Strings are represented by their UTF-8 byte sequences (`List Nat`), a slot
  assignment by `List (Option (List Nat))` of length `NUM_MEMBERS`, and a
  byte buffer by `List Nat`.  Rust panics become `Except.error` values.
* `decode` — the runtime reader, which lives in the `ver_shim` crate (not part
  of these sources); it is modelled from the spec's decode definition.
* `write_to` / `run_objcopy` (ver-shim-build/src/update_section.rs) — the patch
  orchestrator, with the external Section Editor (llvm-readobj / llvm-objcopy
  subprocesses) abstracted as a capability record, as the spec directs.
* `get_git_commit_msg` truncation and `get_build_time` env-override dispatch
  (ver-shim-build/src/lib.rs).
-/

deriving instance DecidableEq for Except

namespace VerShim

/-- Modelled from the spec: the fixed, closed schema of slots.  The `ver_shim`
runtime crate defining `Member` is not among these sources; the nine variants
are those referenced by `lib.rs` (`Member::GitSha` … `Member::Custom`). -/
inductive Member where
  | GitSha
  | GitDescribe
  | GitBranch
  | GitCommitTimestamp
  | GitCommitDate
  | GitCommitMsg
  | BuildTimestamp
  | BuildDate
  | Custom
deriving DecidableEq, Repr

/-- Modelled from the spec: the number of slots in the fixed schema
(`NUM_MEMBERS` in the `ver_shim` crate); the schema has nine members. -/
def NUM_MEMBERS : Nat := 9

/-- Modelled from the spec: the header holds `NUM_SLOTS * 2` bytes, one
little-endian u16 end offset per slot (`HEADER_SIZE` in the `ver_shim` crate). -/
def HEADER_SIZE : Nat := NUM_MEMBERS * 2

/-- Modelled from the spec: the default total buffer size (512 bytes,
operator-overridable through `VER_SHIM_BUFFER_SIZE`). -/
def BUFFER_SIZE : Nat := 512

/-- Modelled from the spec: the fixed dot-prefixed section name
(`SECTION_NAME` in the `ver_shim` crate, `.ver_shim_data` per the examples). -/
def SECTION_NAME : String := ".ver_shim_data"

/-- The two little-endian bytes of `(v as u16).to_le_bytes()` in Rust:
the cast reduces modulo 2^16, then the low byte comes first. -/
def u16le (v : Nat) : List Nat :=
  [v % 65536 % 256, v % 65536 / 256]

/-- Errors with which the encoder can abort (Rust panics).
`bufferOverflow absEnd bufSize` is the explicit size check in
`build_section_buffer`; `indexPanic` is the implicit Rust slice-indexing
panic of `buffer[a..b].copy_from_slice(..)` when the range is out of bounds. -/
inductive EncodeError where
  | bufferOverflow : Nat → Nat → EncodeError
  | indexPanic : EncodeError
deriving DecidableEq, Repr

/-- The panic message of the overflow check in `build_section_buffer`. -/
def renderEncodeError : EncodeError → String
  | .bufferOverflow absEnd bufSize =>
      "ver-shim-build: section data too large (" ++ toString absEnd ++
      " bytes, max " ++ toString bufSize ++
      "). Set VER_SHIM_BUFFER_SIZE env var to increase the buffer size."
  | .indexPanic => "index out of range"

/-- Rust's `buffer[s..s+c.len()].copy_from_slice(c)`: replaces the bytes at
positions `[s, s + c.length)`; panics (errors) when the range exceeds the
buffer. -/
def copyFromSlice (buffer : List Nat) (s : Nat) (c : List Nat) :
    Except EncodeError (List Nat) :=
  if s + c.length ≤ buffer.length then
    .ok (buffer.take s ++ c ++ buffer.drop (s + c.length))
  else
    .error .indexPanic

/-- The loop body of `build_section_buffer`: walks the member data in slot
order, keeping the running payload cursor `relOff` (relative to the end of the
header); a present value is bounds-checked against `bufSize`, copied at
`HEADER_SIZE + relOff`, and each slot's (possibly unchanged) cursor is written
as a little-endian u16 at `idx * 2`. -/
def encodeLoop (bufSize : Nat) :
    List (Option (List Nat)) → Nat → Nat → List Nat →
    Except EncodeError (List Nat)
  | [], _, _, buffer => .ok buffer
  | none :: rest, idx, relOff, buffer =>
    match copyFromSlice buffer (idx * 2) (u16le relOff) with
    | .error e => .error e
    | .ok buffer2 => encodeLoop bufSize rest (idx + 1) relOff buffer2
  | some bytes :: rest, idx, relOff, buffer =>
    if bufSize < HEADER_SIZE + relOff + bytes.length then
      .error (.bufferOverflow (HEADER_SIZE + relOff + bytes.length) bufSize)
    else
      match copyFromSlice buffer (HEADER_SIZE + relOff) bytes with
      | .error e => .error e
      | .ok buffer1 =>
        match copyFromSlice buffer1 (idx * 2) (u16le (relOff + bytes.length)) with
        | .error e => .error e
        | .ok buffer2 =>
          encodeLoop bufSize rest (idx + 1) (relOff + bytes.length) buffer2

/-- `build_section_buffer` from ver-shim-build/src/lib.rs: allocates a
zero-filled buffer of `bufSize` (the possibly-overridden `BUFFER_SIZE`,
default 512) and runs the encoding loop over the member data. -/
def build_section_buffer (memberData : List (Option (List Nat)))
    (bufSize : Nat := BUFFER_SIZE) : Except EncodeError (List Nat) :=
  encodeLoop bufSize memberData 0 0 (List.replicate bufSize 0)

/-- Total byte length of the present values of a slot assignment. -/
def totalLen : List (Option (List Nat)) → Nat
  | [] => 0
  | none :: rest => totalLen rest
  | some v :: rest => v.length + totalLen rest

/-- Cumulative payload byte length through slot `j` (slots `0..=j`). -/
def cumLen (md : List (Option (List Nat))) (j : Nat) : Nat :=
  totalLen (md.take (j + 1))

/-- The header bytes the encoder produces for the given member data, starting
from cursor `relOff`: one little-endian u16 per slot holding the cumulative
payload length through that slot. -/
def hdrBytes : List (Option (List Nat)) → Nat → List Nat
  | [], _ => []
  | none :: rest, relOff => u16le relOff ++ hdrBytes rest relOff
  | some v :: rest, relOff =>
      u16le (relOff + v.length) ++ hdrBytes rest (relOff + v.length)

/-- The payload bytes: the present values concatenated in slot order. -/
def payloadBytes : List (Option (List Nat)) → List Nat
  | [] => []
  | none :: rest => payloadBytes rest
  | some v :: rest => v ++ payloadBytes rest

/-- Reads a little-endian u16 at byte offset `off` of a buffer (positions past
the end read as 0). -/
def readU16le (buffer : List Nat) (off : Nat) : Nat :=
  buffer.getD off 0 + 256 * buffer.getD (off + 1) 0

/-- Modelled from the spec: one step of the runtime decoder (the `ver_shim`
crate's reader is not among these sources).  For slot `i` with the previous
slot's end offset `prevEnd`: read `end` from the header at `2 * i`; the slot is
present iff `end > prevEnd`, and its value is the byte range
`[HEADER_SIZE + prevEnd, HEADER_SIZE + end)` of the buffer. -/
def decodeSlots (buffer : List Nat) :
    Nat → Nat → Nat → List (Option (List Nat))
  | 0, _, _ => []
  | n + 1, i, prevEnd =>
    let e := readU16le buffer (2 * i)
    (if prevEnd < e then
       some ((buffer.drop (HEADER_SIZE + prevEnd)).take (e - prevEnd))
     else none)
      :: decodeSlots buffer n (i + 1) e

/-- Modelled from the spec: the decode definition — read `NUM_MEMBERS`
little-endian u16 end offsets from the header and cut the payload at those
offsets; values are UTF-8 byte sequences. -/
def decode (buffer : List Nat) : List (Option (List Nat)) :=
  decodeSlots buffer NUM_MEMBERS 0 0

/-- Total UTF-8 byte length of a string, the string being modelled as its
list of characters (Rust `str::len`). -/
def byteLen : List Char → Nat
  | [] => 0
  | c :: rest => c.utf8Size + byteLen rest

/-- Rust `str::is_char_boundary k`: `k` is 0, or the end of the UTF-8
encoding of some prefix of characters (positions past the end are not
boundaries). -/
def isCharBoundary : List Char → Nat → Bool
  | _, 0 => true
  | [], _ + 1 => false
  | c :: rest, k + 1 =>
    if k + 1 < c.utf8Size then false else isCharBoundary rest (k + 1 - c.utf8Size)

/-- The loop of `get_git_commit_msg`: starting at byte index `e`, decrement
until the index is a character boundary (index 0 is always a boundary). -/
def snapBoundary (s : List Char) : Nat → Nat
  | 0 => 0
  | e + 1 => if isCharBoundary s (e + 1) then e + 1 else snapBoundary s e

/-- Rust `&msg[..k]` at a character boundary `k`: the characters whose UTF-8
encodings lie entirely within the first `k` bytes. -/
def takeBytes : List Char → Nat → List Char
  | [], _ => []
  | c :: rest, k => if k < c.utf8Size then [] else c :: takeBytes rest (k - c.utf8Size)

/-- The truncation step of `get_git_commit_msg` (ver-shim-build/src/lib.rs):
a message longer than 100 bytes is cut at the largest character boundary not
exceeding byte 100; shorter messages pass through unchanged. -/
def get_git_commit_msg_trunc (msg : List Char) : List Char :=
  if 100 < byteLen msg then takeBytes msg (snapBoundary msg 100) else msg

/-- `get_build_time` (ver-shim-build/src/lib.rs).  The chrono/std parsers are
external collaborators, passed in as functions: `parseI64` is
`val.parse::<i64>()`, `timestampOpt` is `Utc.timestamp_opt(ts, 0).single()`,
`parseRfc3339` is `DateTime::parse_from_rfc3339`, `withTimezoneUtc` is
`dt.with_timezone(&Utc)`, and `utcNow` is `Utc::now()`.  `envVal` is the
value of `VER_SHIM_BUILD_TIME`, when set; Rust panics become `.error`. -/
def get_build_time {DateTimeUtc DateTimeFixed : Type}
    (envVal : Option String)
    (parseI64 : String → Option Int)
    (timestampOpt : Int → Option DateTimeUtc)
    (parseRfc3339 : String → Option DateTimeFixed)
    (withTimezoneUtc : DateTimeFixed → DateTimeUtc)
    (utcNow : DateTimeUtc) : Except String DateTimeUtc :=
  match envVal with
  | some val =>
    match parseI64 val with
    | some ts =>
      match timestampOpt ts with
      | some dt => .ok dt
      | none => .error ("ver-shim-build: VER_SHIM_BUILD_TIME '" ++ val ++
          "' is not a valid unix timestamp")
    | none =>
      match parseRfc3339 val with
      | some dt => .ok (withTimezoneUtc dt)
      | none => .error ("ver-shim-build: VER_SHIM_BUILD_TIME '" ++ val ++
          "' is not a valid unix timestamp or RFC 3339 datetime")
  | none => .ok utcNow

/-- The ways the Section Editor subprocess (llvm-objcopy) can fail:
the process cannot be started, or it exits with a non-zero status. -/
inductive EditorFailure where
  | spawnFailed : String → EditorFailure
  | nonZeroExit : Int → EditorFailure
deriving DecidableEq, Repr

/-- The external Section Editor capability (the spec's `section_size` /
`rewrite_section` interface, implemented by llvm-readobj and llvm-objcopy
subprocesses in update_section.rs).  `sectionSize` reports the named
section's size in a binary, when present (`get_section_info`);
`updateSection` rewrites the section's bytes, yielding the output binary
(`llvm-objcopy --update-section`). -/
structure SectionEditor where
  sectionSize : List Nat → String → Option Nat
  updateSection : List Nat → String → List Nat → Except EditorFailure (List Nat)

/-- The `cargo_warning` text of update_section.rs when the section is absent. -/
def warnSectionNotFound (sectionName binPath : String) : String :=
  "section '" ++ sectionName ++ "' not found in " ++ binPath ++ ", skipping"

/-- The `cargo_warning` text of update_section.rs on a size mismatch. -/
def warnSizeMismatch (sectionName : String) (size : Nat) : String :=
  "section '" ++ sectionName ++ "' has size " ++ toString size ++
  " but expected " ++ toString BUFFER_SIZE ++
  ", binary may have been built with different ver-shim version"

/-- The panic messages of update_section.rs for editor invocation failures. -/
def renderEditorFailure (objcopyPath : String) : EditorFailure → String
  | .spawnFailed e =>
      "ver-shim-build: failed to execute objcopy at '" ++ objcopyPath ++ "': " ++ e
  | .nonZeroExit code =>
      "ver-shim-build: objcopy failed with status " ++ toString code

/-- `run_objcopy` (ver-shim-build/src/update_section.rs): looks the section up
in the input binary; when absent, records a warning and reports `none`
(nothing written, caller falls back to a copy); when present with a size other
than `BUFFER_SIZE`, records a warning and proceeds anyway; then invokes the
editor, any failure of which is fatal.  `.ok (some out, warnings)` means the
editor wrote the patched binary `out`. -/
def run_objcopy (ed : SectionEditor) (objcopyPath binPath : String)
    (input : List Nat) (sectionName : String) (sectionFile : List Nat) :
    Except String (Option (List Nat) × List String) :=
  match ed.sectionSize input sectionName with
  | none => .ok (none, [warnSectionNotFound sectionName binPath])
  | some size =>
    let warnings := if size = BUFFER_SIZE then []
      else [warnSizeMismatch sectionName size]
    match ed.updateSection input sectionName sectionFile with
    | .ok out => .ok (some out, warnings)
    | .error f => .error (renderEditorFailure objcopyPath f)

/-- `UpdateSectionCommand::write_to` (ver-shim-build/src/update_section.rs),
restricted to its patching core: run the editor via `run_objcopy`; when the
section was absent, copy the input binary to the output verbatim (`fs::copy`).
The result carries the output binary's bytes and the warnings recorded. -/
def write_to (ed : SectionEditor) (objcopyPath binPath : String)
    (input : List Nat) (sectionFile : List Nat) :
    Except String (List Nat × List String) :=
  match run_objcopy ed objcopyPath binPath input SECTION_NAME sectionFile with
  | .error e => .error e
  | .ok (some out, ws) => .ok (out, ws)
  | .ok (none, ws) => .ok (input, ws)

/-- A sample assignment with three present, nonempty values (6 payload bytes). -/
def sampleAssignment : List (Option (List Nat)) :=
  [some [104, 105], none, some [33], none, none, none, none, none,
   some [97, 98, 99]]

/-- The buffer a successful encode of `sampleAssignment` produces. -/
def sampleBuffer : List Nat :=
  hdrBytes sampleAssignment 0 ++
    (payloadBytes sampleAssignment ++ List.replicate 488 0)

/-- An assignment whose first slot is present with the empty string. -/
def emptyValueAssignment : List (Option (List Nat)) :=
  some [] :: List.replicate 8 none

/-- An assignment whose first value (495 bytes) overruns the 494 payload
bytes of the default 512-byte buffer. -/
def overflowAssignment : List (Option (List Nat)) :=
  some (List.replicate 495 97) :: List.replicate 8 none

/-- A one-byte assignment, for exercising the encoder at a small buffer size. -/
def tinyAssignment : List (Option (List Nat)) :=
  some [97] :: List.replicate 8 none

/-- The buffer encoding `tinyAssignment` at buffer size 20. -/
def tinyBuffer : List Nat :=
  [1, 0, 1, 0, 1, 0, 1, 0, 1, 0, 1, 0, 1, 0, 1, 0, 1, 0, 97, 0]

/-- A commit message of 101 ASCII bytes. -/
def longAsciiMsg : List Char := List.replicate 101 'a'

/-- A commit message of 1 + 2 * 50 = 101 bytes whose byte 100 falls inside
the last two-byte character. -/
def longAccentMsg : List Char := 'a' :: List.replicate 50 'é'

/-- A short commit message (3 bytes). -/
def shortMsg : List Char := ['f', 'i', 'x']

/-- A test stand-in for `val.parse::<i64>()`. -/
def testParseI64 : String → Option Int :=
  fun s =>
    if s = "42" then some 42
    else if s = "9000000000000000000" then some 9000000000000000000
    else none

/-- A test stand-in for `Utc.timestamp_opt(ts, 0).single()`. -/
def testTimestampOpt : Int → Option Int :=
  fun ts => if ts < 100000 then some ts else none

/-- A test stand-in for `DateTime::parse_from_rfc3339`. -/
def testParseRfc3339 : String → Option Int :=
  fun s => if s = "2024-01-01T00:00:00Z" then some 7 else none

/-- An editor for a binary lacking the section. -/
def absentEditor : SectionEditor :=
  ⟨fun _ _ => none, fun i _ _ => .ok i⟩

/-- An editor whose objcopy invocation exits with status 1, over a binary
whose section has the expected size. -/
def failingEditor : SectionEditor :=
  ⟨fun _ _ => some 512, fun _ _ _ => .error (.nonZeroExit 1)⟩

/-- An editor for a binary whose section size (256) mismatches `BUFFER_SIZE`;
rewriting succeeds and yields a fixed output binary. -/
def mismatchEditor : SectionEditor :=
  ⟨fun _ _ => some 256, fun _ _ _ => .ok [7, 7, 7]⟩

theorem u16le_length (v : Nat) : (u16le v).length = 2 := rfl

theorem hdrBytes_length (l : List (Option (List Nat))) :
    ∀ r, (hdrBytes l r).length = 2 * l.length := by
  induction l with
  | nil => intro r; rfl
  | cons d rest ih =>
    intro r
    cases d <;> simp [hdrBytes, u16le, ih, List.length_cons] <;> omega

theorem payloadBytes_length (l : List (Option (List Nat))) :
    (payloadBytes l).length = totalLen l := by
  induction l with
  | nil => rfl
  | cons d rest ih => cases d <;> simp [payloadBytes, totalLen, ih]

theorem copyFromSlice_at (a b c : List Nat) (hc : c.length ≤ b.length) :
    copyFromSlice (a ++ b) a.length c = .ok (a ++ (c ++ b.drop c.length)) := by
  unfold copyFromSlice
  rw [if_pos (by simp [Nat.add_le_add_left hc])]
  rw [List.take_left, List.drop_append, List.append_assoc]

theorem copyFromSlice_ok_facts (buffer c b2 : List Nat) (s : Nat)
    (h : copyFromSlice buffer s c = .ok b2) :
    b2.length = buffer.length ∧ s + c.length ≤ buffer.length := by
  unfold copyFromSlice at h
  split at h
  · cases h
    refine ⟨?_, by assumption⟩
    simp only [List.length_append, List.length_take, List.length_drop]
    omega
  · cases h

/-- Dropping the first `k ≤ n` entries of `replicate n x ++ t`. -/
theorem drop_replicate_append (n k : Nat) (x : Nat) (t : List Nat) (h : k ≤ n) :
    (List.replicate n x ++ t).drop k = List.replicate (n - k) x ++ t := by
  rw [List.drop_append_of_le_length (by simp [h]), List.drop_replicate]


theorem encodeLoop_ok_eq (bufSize : Nat) (rest : List (Option (List Nat))) :
    ∀ (idx relOff : Nat) (hd pl : List Nat),
    hd.length = idx * 2 →
    pl.length = relOff →
    2 * (idx + rest.length) ≤ HEADER_SIZE →
    HEADER_SIZE + relOff + totalLen rest ≤ bufSize →
    encodeLoop bufSize rest idx relOff
      (hd ++ (List.replicate (HEADER_SIZE - idx * 2) 0 ++ (pl ++
        List.replicate (bufSize - HEADER_SIZE - relOff) 0)))
      = .ok (hd ++ (hdrBytes rest relOff ++
          (List.replicate (HEADER_SIZE - (idx + rest.length) * 2) 0 ++ (pl ++
          (payloadBytes rest ++
          List.replicate (bufSize - HEADER_SIZE - relOff - totalLen rest) 0))))) := by
  induction rest with
  | nil =>
    intro idx relOff hd pl hhd hpl hidx hfit
    simp [encodeLoop, hdrBytes, payloadBytes, totalLen]
  | cons d rest ih =>
    intro idx relOff hd pl hhd hpl hidx hfit
    have hH : HEADER_SIZE = 18 := rfl
    simp only [List.length_cons] at hidx
    cases d with
    | none =>
      have hw : copyFromSlice
          (hd ++ (List.replicate (HEADER_SIZE - idx * 2) 0 ++ (pl ++
            List.replicate (bufSize - HEADER_SIZE - relOff) 0))) (idx * 2)
          (u16le relOff)
          = .ok (hd ++ (u16le relOff ++
              (List.replicate (HEADER_SIZE - (idx + 1) * 2) 0 ++ (pl ++
                List.replicate (bufSize - HEADER_SIZE - relOff) 0)))) := by
        rw [← hhd, copyFromSlice_at _ _ _
          (by simp only [u16le_length, List.length_append, List.length_replicate]
              omega)]
        rw [u16le_length, drop_replicate_append _ _ _ _ (by omega)]
        rw [show HEADER_SIZE - hd.length - 2 = HEADER_SIZE - (idx + 1) * 2 by omega]
      simp only [encodeLoop, hw]
      have hstep := ih (idx + 1) relOff (hd ++ u16le relOff) pl
        (by simp only [List.length_append, u16le_length, hhd]; omega) hpl
        (by omega)
        (by simp only [totalLen] at hfit; omega)
      rw [List.append_assoc] at hstep
      rw [hstep]
      simp only [hdrBytes, totalLen, payloadBytes, List.append_assoc,
        List.length_cons]
      rw [show idx + 1 + rest.length = idx + (rest.length + 1) by omega]
    | some v =>
      have hfit1 : HEADER_SIZE + relOff + v.length + totalLen rest ≤ bufSize := by
        simp only [totalLen] at hfit; omega
      have hsplit : hd ++ (List.replicate (HEADER_SIZE - idx * 2) 0 ++ (pl ++
            List.replicate (bufSize - HEADER_SIZE - relOff) 0))
          = (hd ++ List.replicate (HEADER_SIZE - idx * 2) 0 ++ pl) ++
            List.replicate (bufSize - HEADER_SIZE - relOff) 0 := by
        simp [List.append_assoc]
      have hlenpre : (hd ++ List.replicate (HEADER_SIZE - idx * 2) 0 ++ pl).length
          = HEADER_SIZE + relOff := by
        simp only [List.length_append, List.length_replicate, hhd, hpl]
        omega
      have hw1 : copyFromSlice
          (hd ++ (List.replicate (HEADER_SIZE - idx * 2) 0 ++ (pl ++
            List.replicate (bufSize - HEADER_SIZE - relOff) 0)))
          (HEADER_SIZE + relOff) v
          = .ok (hd ++ (List.replicate (HEADER_SIZE - idx * 2) 0 ++ (pl ++ (v ++
              List.replicate (bufSize - HEADER_SIZE - (relOff + v.length)) 0)))) := by
        rw [hsplit, ← hlenpre,
          copyFromSlice_at _ _ _ (by simp only [List.length_replicate]; omega)]
        rw [List.drop_replicate]
        simp only [List.append_assoc]
        rw [show bufSize - HEADER_SIZE - relOff - v.length
            = bufSize - HEADER_SIZE - (relOff + v.length) by omega]
      have hw2 : copyFromSlice
          (hd ++ (List.replicate (HEADER_SIZE - idx * 2) 0 ++ (pl ++ (v ++
            List.replicate (bufSize - HEADER_SIZE - (relOff + v.length)) 0))))
          (idx * 2) (u16le (relOff + v.length))
          = .ok (hd ++ (u16le (relOff + v.length) ++
              (List.replicate (HEADER_SIZE - (idx + 1) * 2) 0 ++ (pl ++ (v ++
                List.replicate (bufSize - HEADER_SIZE - (relOff + v.length)) 0))))) := by
        rw [← hhd, copyFromSlice_at _ _ _
          (by simp only [u16le_length, List.length_append, List.length_replicate]
              omega)]
        rw [u16le_length, drop_replicate_append _ _ _ _ (by omega)]
        rw [show HEADER_SIZE - hd.length - 2 = HEADER_SIZE - (idx + 1) * 2 by omega]
      simp only [encodeLoop]
      rw [if_neg (by omega)]
      simp only [hw1, hw2]
      have hstep := ih (idx + 1) (relOff + v.length) (hd ++ u16le (relOff + v.length))
        (pl ++ v)
        (by simp only [List.length_append, u16le_length, hhd]; omega)
        (by simp only [List.length_append, hpl])
        (by omega)
        (by omega)
      simp only [List.append_assoc] at hstep
      rw [hstep]
      simp only [hdrBytes, totalLen, payloadBytes, List.append_assoc,
        List.length_cons]
      rw [show idx + 1 + rest.length = idx + (rest.length + 1) by omega]
      rw [show bufSize - HEADER_SIZE - (relOff + v.length) - totalLen rest
          = bufSize - HEADER_SIZE - relOff - (v.length + totalLen rest) by omega]


theorem encodeLoop_ok_le (bufSize : Nat) (rest : List (Option (List Nat))) :
    ∀ (idx relOff : Nat) (buffer B : List Nat),
    buffer.length = bufSize →
    encodeLoop bufSize rest idx relOff buffer = .ok B →
    (rest = [] ∨ (idx + rest.length) * 2 ≤ bufSize) ∧
    (totalLen rest = 0 ∨ HEADER_SIZE + relOff + totalLen rest ≤ bufSize) := by
  induction rest with
  | nil =>
    intro idx relOff buffer B hlen hok
    exact ⟨Or.inl rfl, Or.inl rfl⟩
  | cons d rest ih =>
    intro idx relOff buffer B hlen hok
    cases d with
    | none =>
      rw [encodeLoop] at hok
      cases hcp : copyFromSlice buffer (idx * 2) (u16le relOff) with
      | error e => rw [hcp] at hok; simp at hok
      | ok buffer2 =>
        rw [hcp] at hok
        simp only [] at hok
        obtain ⟨hlen2, hbound⟩ := copyFromSlice_ok_facts _ _ _ _ hcp
        rw [u16le_length] at hbound
        have hrec := ih (idx + 1) relOff buffer2 B (hlen2.trans hlen) hok
        constructor
        · right
          rcases hrec.1 with h | h
          · subst h
            simp only [List.length_cons, List.length_nil]
            omega
          · simp only [List.length_cons]
            omega
        · simpa [totalLen] using hrec.2
    | some v =>
      rw [encodeLoop] at hok
      by_cases hov : bufSize < HEADER_SIZE + relOff + v.length
      · rw [if_pos hov] at hok; simp at hok
      · rw [if_neg hov] at hok
        cases hcp1 : copyFromSlice buffer (HEADER_SIZE + relOff) v with
        | error e => rw [hcp1] at hok; simp at hok
        | ok buffer1 =>
          rw [hcp1] at hok
          simp only [] at hok
          obtain ⟨hl1, hb1⟩ := copyFromSlice_ok_facts _ _ _ _ hcp1
          cases hcp2 : copyFromSlice buffer1 (idx * 2) (u16le (relOff + v.length)) with
          | error e => rw [hcp2] at hok; simp at hok
          | ok buffer2 =>
            rw [hcp2] at hok
            simp only [] at hok
            obtain ⟨hl2, hbound⟩ := copyFromSlice_ok_facts _ _ _ _ hcp2
            rw [u16le_length] at hbound
            have hrec := ih (idx + 1) (relOff + v.length) buffer2 B
              (by omega) hok
            constructor
            · right
              rcases hrec.1 with h | h
              · subst h
                simp only [List.length_cons, List.length_nil]
                omega
              · simp only [List.length_cons]
                omega
            · right
              rcases hrec.2 with h | h
              · simp only [totalLen]
                omega
              · simp only [totalLen]
                omega

/-- Encoding success at the real member count implies the payload fits. -/
theorem build_ok_fits (md : List (Option (List Nat))) (bufSize : Nat)
    (B : List Nat) (hlen : md.length = NUM_MEMBERS)
    (hok : build_section_buffer md bufSize = .ok B) :
    HEADER_SIZE + totalLen md ≤ bufSize := by
  have hH : HEADER_SIZE = 18 := rfl
  have h := encodeLoop_ok_le bufSize md 0 0 (List.replicate bufSize 0) B
    (by simp) hok
  rcases h.1 with h1 | h1
  · rw [h1] at hlen; simp [NUM_MEMBERS] at hlen
  · rcases h.2 with h2 | h2
    · rw [hlen, NUM_MEMBERS] at h1
      omega
    · omega

/-- The closed form of a successful encode: header of cumulative end offsets,
then the concatenated payload, then zero padding. -/
theorem build_ok_eq (md : List (Option (List Nat))) (bufSize : Nat)
    (hlen : md.length = NUM_MEMBERS)
    (hfit : HEADER_SIZE + totalLen md ≤ bufSize) :
    build_section_buffer md bufSize
      = .ok (hdrBytes md 0 ++ (payloadBytes md ++
          List.replicate (bufSize - HEADER_SIZE - totalLen md) 0)) := by
  have hH : HEADER_SIZE = 18 := rfl
  have h := encodeLoop_ok_eq bufSize md 0 0 [] []
    (by simp) (by simp) (by rw [hlen, NUM_MEMBERS]; omega) (by omega)
  rw [build_section_buffer] at *
  have hsplit : List.replicate bufSize (0 : Nat)
      = ([] : List Nat) ++ (List.replicate (HEADER_SIZE - 0 * 2) 0 ++
          (([] : List Nat) ++ List.replicate (bufSize - HEADER_SIZE - 0) 0)) := by
    simp only [List.nil_append, Nat.zero_mul, Nat.sub_zero]
    rw [← List.replicate_add]
    congr 1
    omega
  rw [hsplit, h]
  simp only [List.nil_append, Nat.zero_add, Nat.sub_zero]
  rw [hlen, NUM_MEMBERS, show HEADER_SIZE - 9 * 2 = 0 by omega]
  simp


theorem encodeLoop_cons_some_step (bufSize idx relOff : Nat)
    (buffer v buffer1 buffer2 : List Nat) (rest : List (Option (List Nat)))
    (hovf : ¬ bufSize < HEADER_SIZE + relOff + v.length)
    (h1 : copyFromSlice buffer (HEADER_SIZE + relOff) v = .ok buffer1)
    (h2 : copyFromSlice buffer1 (idx * 2) (u16le (relOff + v.length))
        = .ok buffer2) :
    encodeLoop bufSize (some v :: rest) idx relOff buffer
      = encodeLoop bufSize rest (idx + 1) (relOff + v.length) buffer2 := by
  simp only [encodeLoop, if_neg hovf, h1, h2]

theorem encodeLoop_overflow (bufSize : Nat) (rest : List (Option (List Nat))) :
    ∀ (idx relOff : Nat) (buffer : List Nat),
    buffer.length = bufSize →
    HEADER_SIZE ≤ bufSize →
    2 * (idx + rest.length) ≤ HEADER_SIZE →
    (∃ j, j < rest.length ∧ rest.getD j none ≠ none ∧
      bufSize < HEADER_SIZE + relOff + totalLen (rest.take (j + 1))) →
    ∃ e, bufSize < e ∧
      encodeLoop bufSize rest idx relOff buffer
        = .error (.bufferOverflow e bufSize) := by
  induction rest with
  | nil =>
    intro idx relOff buffer hlen hH hidx hov
    obtain ⟨j, hj, _, _⟩ := hov
    simp at hj
  | cons d rest ih =>
    intro idx relOff buffer hlen hHb hidx hov
    have hH : HEADER_SIZE = 18 := rfl
    simp only [List.length_cons] at hidx
    cases d with
    | none =>
      have hcp : ∃ buffer2, copyFromSlice buffer (idx * 2) (u16le relOff)
          = .ok buffer2 ∧ buffer2.length = bufSize := by
        unfold copyFromSlice
        rw [if_pos (by rw [u16le_length]; omega)]
        refine ⟨_, rfl, ?_⟩
        simp only [List.length_append, List.length_take, List.length_drop,
          u16le_length]
        omega
      obtain ⟨buffer2, hcp, hlen2⟩ := hcp
      rw [encodeLoop, hcp]
      refine ih (idx + 1) relOff buffer2 hlen2 hHb (by omega) ?_
      obtain ⟨j, hj, hget, hcum⟩ := hov
      cases j with
      | zero => simp at hget
      | succ j =>
        refine ⟨j, by simpa using hj, by simpa using hget, ?_⟩
        simpa [totalLen] using hcum
    | some v =>
      by_cases hovf : bufSize < HEADER_SIZE + relOff + v.length
      · refine ⟨HEADER_SIZE + relOff + v.length, hovf, ?_⟩
        rw [encodeLoop, if_pos hovf]
      · have hcp1 : ∃ buffer1, copyFromSlice buffer (HEADER_SIZE + relOff) v
            = .ok buffer1 ∧ buffer1.length = bufSize := by
          unfold copyFromSlice
          rw [if_pos (by omega)]
          refine ⟨_, rfl, ?_⟩
          simp only [List.length_append, List.length_take, List.length_drop]
          omega
        obtain ⟨buffer1, hcp1, hlen1⟩ := hcp1
        have hcp2 : ∃ buffer2,
            copyFromSlice buffer1 (idx * 2) (u16le (relOff + v.length))
              = .ok buffer2 ∧ buffer2.length = bufSize := by
          unfold copyFromSlice
          rw [if_pos (by rw [u16le_length]; omega)]
          refine ⟨_, rfl, ?_⟩
          simp only [List.length_append, List.length_take, List.length_drop,
            u16le_length]
          omega
        obtain ⟨buffer2, hcp2, hlen2⟩ := hcp2
        rw [encodeLoop_cons_some_step bufSize idx relOff buffer v buffer1 buffer2
          rest hovf hcp1 hcp2]
        refine ih (idx + 1) (relOff + v.length) buffer2 hlen2 hHb (by omega) ?_
        obtain ⟨j, hj, hget, hcum⟩ := hov
        cases j with
        | zero =>
          simp only [List.take_succ_cons, List.take_zero, totalLen] at hcum
          omega
        | succ j =>
          refine ⟨j, by simpa using hj, by simpa using hget, ?_⟩
          simp only [List.take_succ_cons, totalLen] at hcum
          omega

/-- Whenever some present slot's absolute end exceeds the buffer size, the
encoder aborts with the overflow panic. -/
theorem build_overflow (md : List (Option (List Nat))) (bufSize : Nat)
    (hH : HEADER_SIZE ≤ bufSize) (hlen : md.length = NUM_MEMBERS)
    (hov : ∃ j, j < md.length ∧ md.getD j none ≠ none ∧
      bufSize < HEADER_SIZE + cumLen md j) :
    ∃ e, bufSize < e ∧
      build_section_buffer md bufSize = .error (.bufferOverflow e bufSize) := by
  refine encodeLoop_overflow bufSize md 0 0 (List.replicate bufSize 0)
    (by simp) hH (by rw [hlen]; rfl) ?_
  simpa [cumLen] using hov


theorem readU16le_u16le (w : Nat) (t : List Nat) :
    readU16le (u16le w ++ t) 0 = w % 65536 := by
  simp only [readU16le, u16le, List.cons_append, List.getD_cons_zero,
    List.getD_cons_succ, Nat.zero_add]
  have h1 : w % 65536 % 256 + 256 * (w % 65536 / 256) = w % 65536 :=
    Nat.mod_add_div (w % 65536) 256
  exact h1

theorem readU16le_cons2 (a b : Nat) (t : List Nat) (k : Nat) :
    readU16le (a :: b :: t) (k + 2) = readU16le t k := by
  simp [readU16le, List.getD_cons_succ]

theorem readU16le_u16le_shift (w : Nat) (t : List Nat) (k : Nat) :
    readU16le (u16le w ++ t) (k + 2) = readU16le t k := by
  simp only [u16le, List.cons_append, List.nil_append]
  exact readU16le_cons2 _ _ _ _

/-- The `i`-th u16 of `hdrBytes l r ++ t` is the cumulative payload length
through slot `i`, reduced modulo 2^16. -/
theorem readU16le_hdrBytes (l : List (Option (List Nat))) :
    ∀ (r i : Nat) (t : List Nat), i < l.length →
    readU16le (hdrBytes l r ++ t) (2 * i)
      = (r + totalLen (l.take (i + 1))) % 65536 := by
  induction l with
  | nil => intro r i t hi; simp at hi
  | cons d rest ih =>
    intro r i t hi
    cases i with
    | zero =>
      cases d with
      | none =>
        simp only [hdrBytes, List.append_assoc, Nat.mul_zero]
        rw [readU16le_u16le]
        simp [totalLen]
      | some v =>
        simp only [hdrBytes, List.append_assoc, Nat.mul_zero]
        rw [readU16le_u16le]
        simp [totalLen]
    | succ i =>
      have hi' : i < rest.length := by simpa using hi
      cases d with
      | none =>
        simp only [hdrBytes, List.append_assoc]
        rw [show 2 * (i + 1) = 2 * i + 2 by omega, readU16le_u16le_shift,
          ih r i t hi']
        simp [totalLen, List.take_succ_cons]
      | some v =>
        simp only [hdrBytes, List.append_assoc]
        rw [show 2 * (i + 1) = 2 * i + 2 by omega, readU16le_u16le_shift,
          ih (r + v.length) i t hi']
        simp only [List.take_succ_cons, totalLen]
        congr 1
        omega

theorem totalLen_take_le (l : List (Option (List Nat))) :
    ∀ n, totalLen (l.take n) ≤ totalLen l := by
  induction l with
  | nil => intro n; simp
  | cons d rest ih =>
    intro n
    cases n with
    | zero => simp [totalLen]
    | succ n =>
      cases d with
      | none =>
        simp only [List.take_succ_cons, totalLen]
        exact ih n
      | some v =>
        simp only [List.take_succ_cons, totalLen]
        exact Nat.add_le_add_left (ih n) _

theorem totalLen_take_mono (l : List (Option (List Nat))) :
    ∀ n, totalLen (l.take n) ≤ totalLen (l.take (n + 1)) := by
  induction l with
  | nil => intro n; simp
  | cons d rest ih =>
    intro n
    cases n with
    | zero =>
      cases d <;> simp [totalLen]
    | succ n =>
      cases d with
      | none => simpa [totalLen] using ih n
      | some v =>
        simp only [List.take_succ_cons, totalLen]
        exact Nat.add_le_add_left (ih n) _


theorem readU16le_append (pre t : List Nat) (k : Nat) (h : pre.length ≤ k) :
    readU16le (pre ++ t) k = readU16le t (k - pre.length) := by
  unfold readU16le
  rw [List.getD_append_right _ _ _ _ h, List.getD_append_right _ _ _ _ (by omega),
    show k + 1 - pre.length = k - pre.length + 1 by omega]

/-- Decoding a buffer of the encoder's closed form recovers the remaining
slots, provided every present value is nonempty and the offsets stay below
2^16. -/
theorem decodeSlots_eq (B : List Nat) (mid zpad : List Nat)
    (rest : List (Option (List Nat))) :
    ∀ (i relOff : Nat) (hdPre plPre : List Nat),
    hdPre.length = 2 * i →
    hdPre.length + (hdrBytes rest relOff).length + mid.length = HEADER_SIZE →
    plPre.length = relOff →
    relOff + totalLen rest < 65536 →
    (∀ d ∈ rest, d ≠ some ([] : List Nat)) →
    B = hdPre ++ (hdrBytes rest relOff ++ (mid ++ (plPre ++
      (payloadBytes rest ++ zpad)))) →
    decodeSlots B rest.length i relOff = rest := by
  induction rest with
  | nil =>
    intro i relOff hdPre plPre _ _ _ _ _ _
    rfl
  | cons d rest ih =>
    intro i relOff hdPre plPre hhd hsum hpl hbound hne hB
    have hne' : ∀ x ∈ rest, x ≠ some ([] : List Nat) := by
      intro x hx
      exact hne x (List.mem_cons_of_mem _ hx)
    -- the header entry for this slot
    have hw : ∀ (w : Nat) (t : List Nat), hdrBytes (d :: rest) relOff = u16le w ++ t →
        readU16le B (2 * i) = w % 65536 := by
      intro w t hsplit
      rw [hB, readU16le_append _ _ _ (by omega), hhd,
        show 2 * i - 2 * i = 0 by omega, hsplit, List.append_assoc,
        readU16le_u16le]
    -- the payload of the remaining slots starts at HEADER_SIZE + relOff
    have hdrop : B.drop (HEADER_SIZE + relOff) = payloadBytes (d :: rest) ++ zpad := by
      have hsp : B = (hdPre ++ hdrBytes (d :: rest) relOff ++ mid ++ plPre) ++
          (payloadBytes (d :: rest) ++ zpad) := by
        rw [hB]; simp [List.append_assoc]
      have hlen4 : (hdPre ++ hdrBytes (d :: rest) relOff ++ mid ++ plPre).length
          = HEADER_SIZE + relOff := by
        simp only [List.length_append]
        omega
      rw [hsp, ← hlen4, List.drop_left]
    cases d with
    | none =>
      have he : readU16le B (2 * i) = relOff := by
        rw [hw relOff (hdrBytes rest relOff) rfl]
        exact Nat.mod_eq_of_lt (by omega)
      rw [List.length_cons]
      simp only [decodeSlots, he, Nat.lt_irrefl, if_false]
      rw [ih (i + 1) relOff (hdPre ++ u16le relOff) plPre
        (by simp [u16le_length, hhd]; omega)
        (by simp only [List.length_append, u16le_length]
            simp only [hdrBytes, List.length_append, u16le_length] at hsum
            omega)
        hpl
        (by simpa [totalLen] using hbound)
        hne'
        (by rw [hB]; simp [hdrBytes, payloadBytes, List.append_assoc])]
    | some v =>
      have hvne : v ≠ [] := by
        intro hv
        exact hne (some v) (List.mem_cons_self _ _) (by rw [hv])
      have hvpos : 0 < v.length := List.length_pos.mpr hvne
      have he : readU16le B (2 * i) = relOff + v.length := by
        rw [hw (relOff + v.length) (hdrBytes rest (relOff + v.length)) rfl]
        refine Nat.mod_eq_of_lt ?_
        simp only [totalLen] at hbound
        omega
      rw [List.length_cons]
      simp only [decodeSlots, he, if_pos (by omega : relOff < relOff + v.length)]
      have hval : (B.drop (HEADER_SIZE + relOff)).take (relOff + v.length - relOff)
          = v := by
        rw [hdrop]
        simp only [payloadBytes, List.append_assoc]
        rw [show relOff + v.length - relOff = v.length by omega, List.take_left]
      rw [hval]
      rw [ih (i + 1) (relOff + v.length) (hdPre ++ u16le (relOff + v.length))
        (plPre ++ v)
        (by simp [u16le_length, hhd]; omega)
        (by simp only [List.length_append, u16le_length]
            simp only [hdrBytes, List.length_append, u16le_length] at hsum
            omega)
        (by simp [hpl])
        (by simp only [totalLen] at hbound; omega)
        hne'
        (by rw [hB]; simp [hdrBytes, payloadBytes, List.append_assoc])]


set_option maxRecDepth 10000

/-- C1 (amended): for every assignment of the nine slots in which every
present value is nonempty and the payload fits in the default buffer,
decoding the encoded buffer yields the assignment back.  (The original claim
also covered present-but-empty values; those are refuted by
`c1_round_trip_counterexample`, since the format encodes an empty value
exactly like an absent slot.) -/
theorem c1_round_trip_nonempty (md : List (Option (List Nat)))
    (hlen : md.length = NUM_MEMBERS)
    (hne : ∀ d ∈ md, d ≠ some ([] : List Nat))
    (hfit : HEADER_SIZE + totalLen md ≤ BUFFER_SIZE) :
    Except.map decode (build_section_buffer md) = .ok md := by
  have hH : HEADER_SIZE = 18 := rfl
  have hB : BUFFER_SIZE = 512 := rfl
  rw [build_ok_eq md BUFFER_SIZE hlen hfit]
  have hdec : decode (hdrBytes md 0 ++ (payloadBytes md ++
      List.replicate (BUFFER_SIZE - HEADER_SIZE - totalLen md) 0)) = md := by
    rw [decode, ← hlen]
    refine decodeSlots_eq _ []
      (List.replicate (BUFFER_SIZE - HEADER_SIZE - totalLen md) 0) md 0 0 [] []
      (by simp) ?_ (by simp) ?_ hne ?_
    · simp [hdrBytes_length, hlen, HEADER_SIZE, NUM_MEMBERS]
    · omega
    · simp
  simp [Except.map, hdec]

/-- C1 witness: the round-trip law at a concrete three-value assignment. -/
theorem c1_round_trip_nonempty_witness :
    Except.map decode (build_section_buffer sampleAssignment)
      = .ok sampleAssignment :=
  c1_round_trip_nonempty sampleAssignment (by decide) (by decide) (by decide)

/-- C1 counterexample: an assignment with a present-but-empty first value
fits the buffer, yet does not round-trip — it decodes to the all-absent
assignment, refuting the claim as stated. -/
theorem c1_round_trip_counterexample :
    HEADER_SIZE + totalLen emptyValueAssignment ≤ BUFFER_SIZE ∧
    Except.map decode (build_section_buffer emptyValueAssignment)
      ≠ .ok emptyValueAssignment := by
  exact ⟨by decide, by decide⟩

/-- C4: encoding the all-absent assignment yields the all-zero buffer of
`BUFFER_SIZE` bytes, and the all-zero buffer decodes to the all-absent
assignment. -/
theorem c4_all_absent_zero :
    build_section_buffer (List.replicate NUM_MEMBERS (none : Option (List Nat)))
      = .ok (List.replicate BUFFER_SIZE 0) ∧
    decode (List.replicate BUFFER_SIZE 0)
      = List.replicate NUM_MEMBERS (none : Option (List Nat)) :=
  ⟨by decide, by decide⟩

/-- C5: whenever encoding succeeds at the default buffer size, the nine
little-endian u16 end offsets in the produced header are monotonically
non-decreasing in slot order. -/
theorem c5_header_monotone (md : List (Option (List Nat))) (B : List Nat)
    (hlen : md.length = NUM_MEMBERS)
    (hok : build_section_buffer md = .ok B)
    (i : Nat) (hi : i + 1 < NUM_MEMBERS) :
    readU16le B (2 * i) ≤ readU16le B (2 * (i + 1)) := by
  have hH : HEADER_SIZE = 18 := rfl
  have hB : BUFFER_SIZE = 512 := rfl
  have hNM : NUM_MEMBERS = 9 := rfl
  have hfit := build_ok_fits md BUFFER_SIZE B hlen hok
  have heq := build_ok_eq md BUFFER_SIZE hlen hfit
  have hBeq : B = hdrBytes md 0 ++ (payloadBytes md ++
      List.replicate (BUFFER_SIZE - HEADER_SIZE - totalLen md) 0) := by
    have h2 := hok.symm.trans heq
    exact (Except.ok.injEq _ _).mp h2
  rw [hBeq, readU16le_hdrBytes md 0 i _ (by omega),
    readU16le_hdrBytes md 0 (i + 1) _ (by omega)]
  have h1 := totalLen_take_le md (i + 1)
  have h2 := totalLen_take_le md (i + 1 + 1)
  have h3 := totalLen_take_mono md (i + 1)
  rw [Nat.zero_add, Nat.zero_add, Nat.mod_eq_of_lt (by omega),
    Nat.mod_eq_of_lt (by omega)]
  exact h3

/-- C5 witness: the first two end offsets of the sample encode. -/
theorem c5_header_monotone_witness :
    readU16le sampleBuffer (2 * 0) ≤ readU16le sampleBuffer (2 * (0 + 1)) :=
  c5_header_monotone sampleAssignment sampleBuffer (by decide) (by decide) 0
    (by decide)

/-- C10: as long as the (possibly overridden) buffer size is at most
`HEADER_SIZE + 65535`, every u16 end offset a successful encode writes equals
the exact cumulative payload byte length at that slot — the `as u16` cast
never wraps. -/
theorem c10_header_exact (md : List (Option (List Nat))) (bufSize : Nat)
    (B : List Nat) (hlen : md.length = NUM_MEMBERS)
    (hok : build_section_buffer md bufSize = .ok B)
    (hbs : bufSize ≤ HEADER_SIZE + 65535)
    (i : Nat) (hi : i < NUM_MEMBERS) :
    readU16le B (2 * i) = cumLen md i := by
  have hH : HEADER_SIZE = 18 := rfl
  have hNM : NUM_MEMBERS = 9 := rfl
  have hfit := build_ok_fits md bufSize B hlen hok
  have heq := build_ok_eq md bufSize hlen hfit
  have hBeq : B = hdrBytes md 0 ++ (payloadBytes md ++
      List.replicate (bufSize - HEADER_SIZE - totalLen md) 0) := by
    have h2 := hok.symm.trans heq
    exact (Except.ok.injEq _ _).mp h2
  rw [hBeq, readU16le_hdrBytes md 0 i _ (by omega)]
  have h1 := totalLen_take_le md (i + 1)
  rw [Nat.zero_add, Nat.mod_eq_of_lt (by omega)]
  rfl

/-- C10 witness: the first end offset at buffer size 20 equals the one-byte
cumulative length. -/
theorem c10_header_exact_witness :
    readU16le tinyBuffer (2 * 0) = cumLen tinyAssignment 0 :=
  c10_header_exact tinyAssignment 20 tinyBuffer (by decide) (by decide)
    (by decide) 0 (by decide)

/-- C2: whenever some present slot's absolute end (`HEADER_SIZE` plus the
cumulative payload length through that slot) exceeds the buffer size, the
encoder fails with the `bufferOverflow` panic carrying the overflowing size
and the limit (no buffer is returned), and the panic message suggests the
`VER_SHIM_BUFFER_SIZE` override. -/
theorem c2_overflow_fatal (md : List (Option (List Nat))) (bufSize : Nat)
    (hH : HEADER_SIZE ≤ bufSize) (hlen : md.length = NUM_MEMBERS)
    (hov : ∃ j, j < md.length ∧ md.getD j none ≠ none ∧
      bufSize < HEADER_SIZE + cumLen md j) :
    ∃ e, bufSize < e ∧
      build_section_buffer md bufSize = .error (.bufferOverflow e bufSize) ∧
      ∃ pre post, renderEncodeError (.bufferOverflow e bufSize)
        = pre ++ ("VER_SHIM_BUFFER_SIZE" ++ post) := by
  obtain ⟨e, he, herr⟩ := build_overflow md bufSize hH hlen hov
  refine ⟨e, he, herr,
    "ver-shim-build: section data too large (" ++ toString e ++
      " bytes, max " ++ toString bufSize ++ "). Set ",
    " env var to increase the buffer size.", ?_⟩
  rw [renderEncodeError]
  rw [show ("). Set VER_SHIM_BUFFER_SIZE env var to increase the buffer size."
      : String)
    = "). Set " ++ ("VER_SHIM_BUFFER_SIZE" ++
        " env var to increase the buffer size.") from by decide]
  simp [String.append_assoc]

/-- C2 witness: the 495-byte value overflows the default 512-byte buffer. -/
theorem c2_overflow_fatal_witness :
    ∃ e, 512 < e ∧
      build_section_buffer overflowAssignment 512
        = .error (.bufferOverflow e 512) ∧
      ∃ pre post, renderEncodeError (.bufferOverflow e 512)
        = pre ++ ("VER_SHIM_BUFFER_SIZE" ++ post) :=
  c2_overflow_fatal overflowAssignment 512 (by decide) (by decide)
    ⟨0, by decide, by decide, by decide⟩


theorem isCharBoundary_zero (s : List Char) : isCharBoundary s 0 = true := by
  cases s <;> rfl

theorem snapBoundary_le (s : List Char) : ∀ e, snapBoundary s e ≤ e := by
  intro e
  induction e with
  | zero => exact Nat.le_refl 0
  | succ e ih =>
    rw [snapBoundary]
    split
    · exact Nat.le_refl _
    · exact Nat.le_trans ih (Nat.le_succ e)

theorem snapBoundary_isBoundary (s : List Char) :
    ∀ e, isCharBoundary s (snapBoundary s e) = true := by
  intro e
  induction e with
  | zero => exact isCharBoundary_zero s
  | succ e ih =>
    rw [snapBoundary]
    split
    · assumption
    · exact ih

theorem takeBytes_append (s : List Char) :
    ∀ k, ∃ t, s = takeBytes s k ++ t := by
  induction s with
  | nil => intro k; exact ⟨[], rfl⟩
  | cons c rest ih =>
    intro k
    rw [takeBytes]
    split
    · exact ⟨c :: rest, rfl⟩
    · obtain ⟨t, ht⟩ := ih (k - c.utf8Size)
      exact ⟨t, by rw [List.cons_append, ← ht]⟩

theorem byteLen_takeBytes (s : List Char) :
    ∀ k, isCharBoundary s k = true → byteLen (takeBytes s k) = k := by
  induction s with
  | nil =>
    intro k hk
    cases k with
    | zero => rfl
    | succ k => simp [isCharBoundary] at hk
  | cons c rest ih =>
    intro k hk
    cases k with
    | zero =>
      rw [takeBytes, if_pos c.utf8Size_pos]
      rfl
    | succ k =>
      rw [isCharBoundary] at hk
      by_cases hlt : k + 1 < c.utf8Size
      · rw [if_pos hlt] at hk
        cases hk
      · rw [if_neg hlt] at hk
        rw [takeBytes, if_neg hlt, byteLen, ih _ hk]
        omega

/-- C6: the commit-message truncation returns messages of at most 100 bytes
unchanged; a longer message is cut to a prefix of at most 100 bytes whose end
lies on a UTF-8 character boundary (so the result is well-formed UTF-8). -/
theorem c6_commit_msg_truncation (msg : List Char) :
    (byteLen msg ≤ 100 → get_git_commit_msg_trunc msg = msg) ∧
    (100 < byteLen msg →
      ∃ t, msg = get_git_commit_msg_trunc msg ++ t ∧
        byteLen (get_git_commit_msg_trunc msg) ≤ 100 ∧
        isCharBoundary msg (byteLen (get_git_commit_msg_trunc msg)) = true) := by
  constructor
  · intro h
    rw [get_git_commit_msg_trunc, if_neg (by omega)]
  · intro h
    rw [get_git_commit_msg_trunc, if_pos h]
    have hb := snapBoundary_isBoundary msg 100
    have hle := snapBoundary_le msg 100
    obtain ⟨t, ht⟩ := takeBytes_append msg (snapBoundary msg 100)
    have hlen := byteLen_takeBytes msg (snapBoundary msg 100) hb
    refine ⟨t, ht, by omega, ?_⟩
    rw [hlen]
    exact hb

/-- C6 witness: a 3-byte message passes through; a 101-byte message ending in
a two-byte character is cut at byte 99, a character boundary. -/
theorem c6_commit_msg_truncation_witness :
    get_git_commit_msg_trunc shortMsg = shortMsg ∧
    (∃ t, longAccentMsg = get_git_commit_msg_trunc longAccentMsg ++ t ∧
      byteLen (get_git_commit_msg_trunc longAccentMsg) ≤ 100 ∧
      isCharBoundary longAccentMsg
        (byteLen (get_git_commit_msg_trunc longAccentMsg)) = true) :=
  ⟨(c6_commit_msg_truncation shortMsg).1 (by decide),
   (c6_commit_msg_truncation longAccentMsg).2 (by decide)⟩

/-- C9: the build-time provider returns the current time when the override is
absent; with an override it returns the denoted time, trying the integer
epoch-seconds parse first and RFC 3339 second; a value that parses under
neither, or whose integer is out of range for a timestamp, is a fatal error. -/
theorem c9_build_time_override {DateTimeUtc DateTimeFixed : Type}
    (parseI64 : String → Option Int)
    (timestampOpt : Int → Option DateTimeUtc)
    (parseRfc3339 : String → Option DateTimeFixed)
    (withTimezoneUtc : DateTimeFixed → DateTimeUtc) (utcNow : DateTimeUtc) :
    (get_build_time none parseI64 timestampOpt parseRfc3339 withTimezoneUtc
        utcNow = .ok utcNow) ∧
    (∀ v ts dt, parseI64 v = some ts → timestampOpt ts = some dt →
      get_build_time (some v) parseI64 timestampOpt parseRfc3339
        withTimezoneUtc utcNow = .ok dt) ∧
    (∀ v dt, parseI64 v = none → parseRfc3339 v = some dt →
      get_build_time (some v) parseI64 timestampOpt parseRfc3339
        withTimezoneUtc utcNow = .ok (withTimezoneUtc dt)) ∧
    (∀ v ts, parseI64 v = some ts → timestampOpt ts = none →
      ∃ msg, get_build_time (some v) parseI64 timestampOpt parseRfc3339
        withTimezoneUtc utcNow = .error msg) ∧
    (∀ v, parseI64 v = none → parseRfc3339 v = none →
      ∃ msg, get_build_time (some v) parseI64 timestampOpt parseRfc3339
        withTimezoneUtc utcNow = .error msg) := by
  refine ⟨rfl, ?_, ?_, ?_, ?_⟩
  · intro v ts dt h1 h2
    simp [get_build_time, h1, h2]
  · intro v dt h1 h2
    simp [get_build_time, h1, h2]
  · intro v ts h1 h2
    refine ⟨"ver-shim-build: VER_SHIM_BUILD_TIME '" ++ v ++
      "' is not a valid unix timestamp", ?_⟩
    simp [get_build_time, h1, h2]
  · intro v h1 h2
    refine ⟨"ver-shim-build: VER_SHIM_BUILD_TIME '" ++ v ++
      "' is not a valid unix timestamp or RFC 3339 datetime", ?_⟩
    simp [get_build_time, h1, h2]

/-- C9 witness: all five behaviors at concrete parsers and values. -/
theorem c9_build_time_override_witness :
    (get_build_time none testParseI64 testTimestampOpt
        testParseRfc3339 id 99 = .ok 99) ∧
    (get_build_time (some "42") testParseI64 testTimestampOpt
        testParseRfc3339 id 99 = .ok 42) ∧
    (get_build_time (some "2024-01-01T00:00:00Z") testParseI64 testTimestampOpt
        testParseRfc3339 id 99 = .ok (id (7 : Int))) ∧
    (∃ msg, get_build_time (some "9000000000000000000") testParseI64
        testTimestampOpt testParseRfc3339 id 99 = .error msg) ∧
    (∃ msg, get_build_time (some "zzz") testParseI64 testTimestampOpt
        testParseRfc3339 id 99 = .error msg) := by
  obtain ⟨h1, h2, h3, h4, h5⟩ := c9_build_time_override testParseI64
    testTimestampOpt testParseRfc3339 id 99
  exact ⟨h1, h2 "42" 42 42 (by decide) (by decide),
    h3 "2024-01-01T00:00:00Z" 7 (by decide) (by decide),
    h4 "9000000000000000000" 9000000000000000000 (by decide) (by decide),
    h5 "zzz" (by decide) (by decide)⟩

/-- C3: when the target binary lacks the named section, the patch operation
succeeds with an output byte-identical to the input, records exactly the
not-found warning naming the section and the binary, and never consults the
section-rewriting editor (the result holds for every `updateSection`
behavior). -/
theorem c3_missing_section_copy (sz : List Nat → String → Option Nat)
    (up : List Nat → String → List Nat → Except EditorFailure (List Nat))
    (objcopyPath binPath : String) (input sectionFile : List Nat)
    (habsent : sz input SECTION_NAME = none) :
    write_to ⟨sz, up⟩ objcopyPath binPath input sectionFile
      = .ok (input, [warnSectionNotFound SECTION_NAME binPath]) := by
  simp [write_to, run_objcopy, habsent]

/-- C3 witness: a concrete section-less binary is copied verbatim. -/
theorem c3_missing_section_copy_witness :
    write_to absentEditor "llvm-objcopy" "target/debug/app" [1, 2, 3] [0]
      = .ok ([1, 2, 3], [warnSectionNotFound SECTION_NAME "target/debug/app"]) :=
  c3_missing_section_copy (fun _ _ => none) (fun i _ _ => .ok i)
    "llvm-objcopy" "target/debug/app" [1, 2, 3] [0] rfl

/-- C7: when the section exists with a size other than `BUFFER_SIZE`, the
mismatch warning is recorded and the rewrite is still attempted: the outcome
is exactly the editor's outcome — its output on success, its failure as the
fatal error — never a silent failure or a verbatim-copy fallback. -/
theorem c7_size_mismatch_proceeds (sz : List Nat → String → Option Nat)
    (up : List Nat → String → List Nat → Except EditorFailure (List Nat))
    (objcopyPath binPath : String) (input sectionFile : List Nat) (size : Nat)
    (hsz : sz input SECTION_NAME = some size) (hne : size ≠ BUFFER_SIZE) :
    (∀ out, up input SECTION_NAME sectionFile = .ok out →
      write_to ⟨sz, up⟩ objcopyPath binPath input sectionFile
        = .ok (out, [warnSizeMismatch SECTION_NAME size])) ∧
    (∀ f, up input SECTION_NAME sectionFile = .error f →
      write_to ⟨sz, up⟩ objcopyPath binPath input sectionFile
        = .error (renderEditorFailure objcopyPath f)) := by
  constructor
  · intro out hout
    simp [write_to, run_objcopy, hsz, hout, if_neg hne]
  · intro f hf
    simp [write_to, run_objcopy, hsz, hf, if_neg hne]

/-- C7 witness: a 256-byte section is rewritten anyway, with the warning. -/
theorem c7_size_mismatch_proceeds_witness :
    write_to mismatchEditor "oc" "bin" [9] [0]
      = .ok ([7, 7, 7], [warnSizeMismatch SECTION_NAME 256]) :=
  (c7_size_mismatch_proceeds (fun _ _ => some 256) (fun _ _ _ => .ok [7, 7, 7])
    "oc" "bin" [9] [0] 256 rfl (by decide)).1 [7, 7, 7] rfl

/-- C8: whenever the editor invocation fails — the process cannot be started
(`spawnFailed`) or exits non-zero (`nonZeroExit`) — the patch operation
aborts with a fatal error and yields no output binary. -/
theorem c8_editor_failure_fatal (sz : List Nat → String → Option Nat)
    (up : List Nat → String → List Nat → Except EditorFailure (List Nat))
    (objcopyPath binPath : String) (input sectionFile : List Nat) (size : Nat)
    (f : EditorFailure)
    (hsz : sz input SECTION_NAME = some size)
    (hfail : up input SECTION_NAME sectionFile = .error f) :
    write_to ⟨sz, up⟩ objcopyPath binPath input sectionFile
      = .error (renderEditorFailure objcopyPath f) := by
  simp [write_to, run_objcopy, hsz, hfail]

/-- C8 witness: a non-zero objcopy exit is fatal. -/
theorem c8_editor_failure_fatal_witness :
    write_to failingEditor "llvm-objcopy" "bin" [1] [0]
      = .error (renderEditorFailure "llvm-objcopy" (.nonZeroExit 1)) :=
  c8_editor_failure_fatal (fun _ _ => some 512)
    (fun _ _ _ => .error (.nonZeroExit 1)) "llvm-objcopy" "bin" [1] [0] 512
    (.nonZeroExit 1) rfl rfl

end VerShim
